import Mathlib

/-!
Verification of the telnet console client of mackerel-7dtd
(pkg/telnet/telnet.go): the player-line parser, the comma splitter, the
game-clock parser, and the session lifecycle of GetPlayers and GetTime.
Go strings are modelled as lists of characters; fallible Go functions that
return a value together with an error are modelled as pairs with an
optional error message.
-/

/-- Characters of a Go string, modelled as a list of characters. -/
abbrev Chars := List Char

/-- White space recognised by strings.TrimSpace (the ASCII part, which is
all the inputs of this protocol contain). -/
def isGoSpace (c : Char) : Bool :=
  c = ' ' || c = '\t' || c = '\n' || c = '\r' || c = '\x0b' || c = '\x0c'

/-- strings.TrimSpace: remove leading and trailing white space. -/
def trimSpace (s : Chars) : Chars :=
  ((s.dropWhile isGoSpace).reverse.dropWhile isGoSpace).reverse

/-- The for-range loop of splitWithCommas: walk the line keeping a buffer
and an inside-parentheses flag; a comma outside parentheses ends the
current buffer, an opening parenthesis sets the flag, a closing one clears
it, and the final buffer is always appended at the end of the line. -/
def splitLoop : Chars → Bool → Chars → List Chars
  | [], _, buf => [buf.reverse]
  | c :: rest, inside, buf =>
    if c = ',' then
      if inside then splitLoop rest inside (c :: buf)
      else buf.reverse :: splitLoop rest inside []
    else if c = '(' then splitLoop rest true (c :: buf)
    else if c = ')' then splitLoop rest false (c :: buf)
    else splitLoop rest inside (c :: buf)

/-- The parts of a line before the trimming pass of splitWithCommas. -/
def splitRaw (line : Chars) : List Chars := splitLoop line false []

/-- splitWithCommas of the source: split a line at commas, respecting
commas inside parentheses, then trim spaces from every part. -/
def splitWithCommas (line : Chars) : List Chars := (splitRaw line).map trimSpace

/-- trimRe1.ReplaceAllString(line, ""), where trimRe1 is the regular
expression of one character class digit, an escaped period and a space:
every leftmost non-overlapping match of one digit followed by a period and
a space is deleted, anywhere in the line (the pattern is not anchored). -/
def trimRe1Replace : Chars → Chars
  | [] => []
  | c :: '.' :: ' ' :: rest2 =>
    if c.isDigit then trimRe1Replace rest2
    else c :: '.' :: ' ' :: trimRe1Replace rest2
  | c :: rest => c :: trimRe1Replace rest

/-- strings.SplitN(part, eq, 2) where eq is the equals sign: none when the
part has no equals sign, otherwise the text before and after the first
one. -/
def splitEq : Chars → Option (Chars × Chars)
  | [] => none
  | c :: rest =>
    if c = '=' then some ([], rest)
    else
      match splitEq rest with
      | none => none
      | some (k, v) => some (c :: k, v)

/-- Value of a run of decimal digit characters. -/
def digitsVal (ds : Chars) : Nat :=
  ds.foldl (fun acc c => 10 * acc + (c.toNat - 48)) 0

/-- A nonempty run of digits at the front of s: its value and the rest. -/
def scanDigits (s : Chars) : Option (Nat × Chars) :=
  let ds := s.takeWhile Char.isDigit
  if ds = [] then none else some (digitsVal ds, s.dropWhile Char.isDigit)

/-- Sscanf verb for a decimal integer: skip blanks, an optional sign, then
a nonempty digit run.  Returns the integer and the unread rest, none when
scanning fails.  (Go reads into a 64-bit machine integer; the claims do
not exercise the range limit, so the model uses unbounded integers.) -/
def scanInt (s : Chars) : Option (Int × Chars) :=
  let t := s.dropWhile (fun c => c = ' ' || c = '\t')
  match t with
  | '-' :: rest => (scanDigits rest).map (fun p => (-(p.1 : Int), p.2))
  | '+' :: rest => (scanDigits rest).map (fun p => ((p.1 : Int), p.2))
  | _ => (scanDigits t).map (fun p => ((p.1 : Int), p.2))

/-- Digits with an optional fractional part; at least one digit must be
present on one side of the period.  The value is the pair of a numerator
and a power of ten for the denominator. -/
def scanMantissa (s : Chars) : Option ((Int × Nat) × Chars) :=
  match scanDigits s with
  | some (n, rest) =>
    match rest with
    | '.' :: rest2 =>
      let fs := rest2.takeWhile Char.isDigit
      some (((n * 10 ^ fs.length + digitsVal fs : Int), fs.length),
            rest2.dropWhile Char.isDigit)
    | _ => some (((n : Int), 0), rest)
  | none =>
    match s with
    | '.' :: rest2 =>
      let fs := rest2.takeWhile Char.isDigit
      if fs = [] then none
      else some (((digitsVal fs : Int), fs.length), rest2.dropWhile Char.isDigit)
    | _ => none

/-- Tail of a decimal exponent: an optional sign then a nonempty digit
run, shifting the mantissa. -/
def scanExpTail (q : Int × Nat) (s : Chars) : Option ((Int × Nat) × Chars) :=
  match s with
  | '-' :: r2 => (scanDigits r2).map (fun p => ((q.1, q.2 + p.1), p.2))
  | '+' :: r2 => (scanDigits r2).map (fun p => ((q.1 * 10 ^ p.1, q.2), p.2))
  | _ => (scanDigits s).map (fun p => ((q.1 * 10 ^ p.1, q.2), p.2))

/-- Mantissa with an optional exponent marker. -/
def scanUnsigned (s : Chars) : Option ((Int × Nat) × Chars) :=
  (scanMantissa s).bind (fun p =>
    match p.2 with
    | 'e' :: r2 => scanExpTail p.1 r2
    | 'E' :: r2 => scanExpTail p.1 r2
    | _ => some p)

/-- Sscanf verb for a floating-point number: skip blanks, an optional
sign, then an unsigned decimal.  The value is kept as an exact rational
built with mkRat; the inputs the claims exercise are exact in binary
floating point, so the rational model agrees with the 64-bit float of the
source there. -/
def scanFloat (s : Chars) : Option (ℚ × Chars) :=
  let t := s.dropWhile (fun c => c = ' ' || c = '\t')
  match t with
  | '-' :: rest => (scanUnsigned rest).map (fun p => (mkRat (-p.1.1) (10 ^ p.1.2), p.2))
  | '+' :: rest => (scanUnsigned rest).map (fun p => (mkRat p.1.1 (10 ^ p.1.2), p.2))
  | _ => (scanUnsigned t).map (fun p => (mkRat p.1.1 (10 ^ p.1.2), p.2))

/-- The anonymous position struct of Player. -/
structure Pos where
  X : ℚ
  Y : ℚ
  Z : ℚ
  deriving DecidableEq

/-- The Player struct of the source. -/
structure Player where
  ID : Int
  Name : Chars
  Position : Pos
  Health : Int
  Deaths : Int
  Zombies : Int
  Players : Int
  Score : Int
  Level : Int
  PltfmID : Chars
  CrossID : Chars
  IP : Chars
  Ping : Int
  deriving DecidableEq

/-- The zero value of Player, as declared by var player Player. -/
def zeroPlayer : Player := ⟨0, [], ⟨0, 0, 0⟩, 0, 0, 0, 0, 0, 0, [], [], [], 0⟩

/-- Sscanf of a parenthesized float triple: the literal opening
parenthesis must match, then the three floats are assigned one by one,
each preceded by a literal comma for the later two; scanning stops
silently at the first mismatch since the caller discards the error, so a
failure part way leaves the later fields at their prior values.  The
closing parenthesis can only influence the discarded error, never an
assignment, so the model omits it. -/
def scanPos (value : Chars) (p : Pos) : Pos :=
  match value with
  | '(' :: r1 =>
    match scanFloat r1 with
    | none => p
    | some (x, r2) =>
      let p1 : Pos := { p with X := x }
      match r2 with
      | ',' :: r3 =>
        match scanFloat r3 with
        | none => p1
        | some (y, r4) =>
          let p2 : Pos := { p1 with Y := y }
          match r4 with
          | ',' :: r5 =>
            match scanFloat r5 with
            | none => p2
            | some (z, _) => { p2 with Z := z }
          | _ => p2
      | _ => p1
  | _ => p

/-- Sscanf of one decimal integer with the error discarded: the field
keeps its prior value when the scan fails. -/
def intOr (cur : Int) (value : Chars) : Int :=
  match scanInt value with
  | some (n, _) => n
  | none => cur

/-- The switch over recognised keys in parsePlayerInfo; unknown keys fall
through and are ignored. -/
def applyField (p : Player) (key value : Chars) : Player :=
  if key = ("id".data) then { p with ID := intOr p.ID value }
  else if key = ("pos".data) then { p with Position := scanPos value p.Position }
  else if key = ("health".data) then { p with Health := intOr p.Health value }
  else if key = ("deaths".data) then { p with Deaths := intOr p.Deaths value }
  else if key = ("zombies".data) then { p with Zombies := intOr p.Zombies value }
  else if key = ("players".data) then { p with Players := intOr p.Players value }
  else if key = ("score".data) then { p with Score := intOr p.Score value }
  else if key = ("level".data) then { p with Level := intOr p.Level value }
  else if key = ("pltfmid".data) then { p with PltfmID := value }
  else if key = ("crossid".data) then { p with CrossID := value }
  else if key = ("ip".data) then { p with IP := value }
  else if key = ("ping".data) then { p with Ping := intOr p.Ping value }
  else p

/-- The error text of the invalid key-value pair error; the quotes that
fmt.Errorf puts around the fragment are elided from the model. -/
def kvErr (part : Chars) : Chars := ("invalid key-value pair: ".data) ++ part

/-- The indexed for-loop of parsePlayerInfo: the part at position 1 is
taken verbatim as the name, every other part must split at an equals sign
or the loop returns at once with an error; key and value are trimmed and
dispatched on the key.  The Go pair return (player built so far, error) is
modelled directly. -/
def parseFields : Player → Nat → List Chars → Player × Option Chars
  | p, _, [] => (p, none)
  | p, i, part :: rest =>
    if i = 1 then parseFields { p with Name := part } (i + 1) rest
    else
      match splitEq part with
      | none => (p, some (kvErr part))
      | some (k, v) => parseFields (applyField p (trimSpace k) (trimSpace v)) (i + 1) rest

/-- parsePlayerInfo of the source: delete the index prefix with trimRe1,
split with splitWithCommas, then run the key-value loop. -/
def parsePlayerInfo (line : Chars) : Player × Option Chars :=
  parseFields zeroPlayer 0 (splitWithCommas (trimRe1Replace line))

/-- The GameTime struct of the source. -/
structure GameTime where
  Days : Int
  Hours : Int
  Minutes : Int
  deriving DecidableEq

/-- The zero value of GameTime. -/
def zeroGameTime : GameTime := ⟨0, 0, 0⟩

/-- The loop of strings.Split for a one-character comma separator. -/
def splitCommaAux : Chars → Chars → List Chars
  | [], buf => [buf.reverse]
  | c :: rest, buf =>
    if c = ',' then buf.reverse :: splitCommaAux rest []
    else splitCommaAux rest (c :: buf)

/-- strings.Split(timeStr, comma): split at every comma. -/
def splitComma (s : Chars) : List Chars := splitCommaAux s []

/-- Sscanf(part, Day-then-int): the three literal characters must match
the front of the part exactly, then blanks are skipped and one integer is
read.  The single verb is the last directive, so the day is assigned
exactly when the whole scan succeeds. -/
def scanDay (s : Chars) : Option Int :=
  match s with
  | 'D' :: 'a' :: 'y' :: rest => (scanInt rest).map (fun p => p.1)
  | _ => none

/-- The invalid time format error text, which embeds the input. -/
def fmtErr (timeStr : Chars) : Chars := ("invalid time format: ".data) ++ timeStr

/-- The failed-to-parse-days error text (the wrapped scan detail is
elided). -/
def daysErr : Chars := "failed to parse days".data

/-- The failed-to-parse-hours-and-minutes error text (the wrapped scan
detail is elided). -/
def hmErr : Chars := "failed to parse hours and minutes".data

/-- parseGameTime of the source: split at commas, demand exactly two
parts, scan the day from the first part and hours colon minutes from the
second.  Sscanf assigns operands as it scans, so when only a later
directive fails the fields already scanned keep their values; the Go
return is the pair of the (possibly partially filled) GameTime and the
error, modelled directly. -/
def parseGameTime (timeStr : Chars) : GameTime × Option Chars :=
  if (splitComma timeStr).length ≠ 2 then (zeroGameTime, some (fmtErr timeStr))
  else
    match scanDay ((splitComma timeStr).getD 0 []) with
    | none => (zeroGameTime, some daysErr)
    | some d =>
      match scanInt ((splitComma timeStr).getD 1 []) with
      | none => (⟨d, 0, 0⟩, some hmErr)
      | some (h, r1) =>
        match r1 with
        | ':' :: r2 =>
          match scanInt r2 with
          | none => (⟨d, h, 0⟩, some hmErr)
          | some (m, _) => (⟨d, h, m⟩, none)
        | _ => (⟨d, h, 0⟩, some hmErr)

/-- The apostrophe character, used by the command-echo marker text. -/
def squote : Char := Char.ofNat 39

/-- Does s start with pre. -/
def startsWith : Chars → Chars → Bool
  | _, [] => true
  | [], _ :: _ => false
  | c :: s, d :: pre2 => c = d && startsWith s pre2

/-- strings.Contains: does sub occur inside s. -/
def containsChars : Chars → Chars → Bool
  | [], sub => sub.isEmpty
  | c :: rest, sub => startsWith (c :: rest) sub || containsChars rest sub

/-- Observable state of one telnet session: the scripted replies the
server still has to deliver (none stands for a read that fails), and how
often the connection was opened and closed.  Writes always succeed into
the buffered writer and are not observable, matching the source, which
never checks them. -/
structure Sess where
  reads : List (Option Chars)
  opens : Nat
  closes : Nat
  deriving DecidableEq

/-- A session before dialling. -/
def initSess (reads : List (Option Chars)) : Sess := ⟨reads, 0, 0⟩

/-- How a high-level operation can end: a value, a returned error, or
termination of the whole process by log.Fatal, which never returns to the
caller. -/
inductive Outcome (α : Type) where
  | ok : α → Outcome α
  | err : Chars → Outcome α
  | fatal : Outcome α
  deriving DecidableEq

/-- The close method: write the exit command best-effort and close the
connection exactly once. -/
def closeConn (s : Sess) : Sess := { s with closes := s.closes + 1 }

/-- One ReadString call: pop the next scripted reply; an exhausted script
reads as an error. -/
def readLine : Sess → Option Chars × Sess
  | ⟨[], o, c⟩ => (none, ⟨[], o, c⟩)
  | ⟨r :: rs, o, c⟩ => (r, ⟨rs, o, c⟩)

/-- The login confirmation marker text. -/
def loginMarker : Chars := "Logon successful.".data

/-- The connect method: dial (opening the connection when the dial
succeeds), read the banner, write the password, read the login reply;
a missing login marker runs log.Fatal.  Note that no path of connect
closes the connection. -/
def connect (dialOk : Bool) (s : Sess) : Outcome Unit × Sess :=
  if dialOk = false then (.err ("Failed to connect to server".data), s)
  else
    let s1 : Sess := { s with opens := s.opens + 1 }
    match readLine s1 with
    | (none, s2) => (.err ("Failed to read initial response".data), s2)
    | (some _, s2) =>
      match readLine s2 with
      | (none, s3) => (.err ("Failed to read initial response".data), s3)
      | (some resp, s3) =>
        if containsChars resp loginMarker then (.ok (), s3) else (.fatal, s3)

/-- The echo marker the exec method waits for. -/
def execMarker (cmd : Chars) : Chars :=
  ("INF Executing command ".data) ++ [squote] ++ cmd ++ [squote] ++ (" by Telnet".data)

/-- The read loop of the exec method: discard lines until one contains the
marker; false reports a read error.  The loop only reads, so it is a pure
function of the scripted replies. -/
def execLoop (marker : Chars) : List (Option Chars) → Bool × List (Option Chars)
  | [] => (false, [])
  | none :: rest => (false, rest)
  | some l :: rest => if containsChars l marker then (true, rest) else execLoop marker rest

/-- The end-of-list sentinel of the player list. -/
def totalMarker : Chars := "Total of ".data

/-- The draining loop of GetPlayers: read lines, stop at the sentinel,
parse every other line, abort at the first read or parse error.  A pure
function of the scripted replies.  (The error texts of the source wrap
the underlying detail; the model keeps a fixed prefix.) -/
def playersLoop : List (Option Chars) → Except Chars (List Player) × List (Option Chars)
  | [] => (.error ("Error reading player data information".data), [])
  | none :: rest => (.error ("Error reading player data information".data), rest)
  | some l :: rest =>
    if containsChars l totalMarker then (.ok [], rest)
    else
      match parsePlayerInfo l with
      | (_, some e) => (.error (("Failed to parse player information: ".data) ++ e), rest)
      | (p, _) =>
        match playersLoop rest with
        | (.ok ps, rem) => (.ok (p :: ps), rem)
        | (.error e, rem) => (.error e, rem)

/-- GetPlayers of the source: connect, and on a connect error or a fatal
login return at once, without closing, since the deferred close is only
installed after connect has returned successfully; afterwards every path
runs the deferred close exactly once. -/
def GetPlayers (dialOk : Bool) (reads : List (Option Chars)) : Outcome (List Player) × Sess :=
  match connect dialOk (initSess reads) with
  | (Outcome.ok _, s) =>
    (match execLoop (execMarker ("lp".data)) s.reads with
     | (false, rem) => (.err ("Error reading cmd init information".data), closeConn { s with reads := rem })
     | (true, rem) =>
       match playersLoop rem with
       | (.error e, rem2) => (.err e, closeConn { s with reads := rem2 })
       | (.ok ps, rem2) => (.ok ps, closeConn { s with reads := rem2 }))
  | (Outcome.err e, s) => (.err e, s)
  | (Outcome.fatal, s) => (.fatal, s)

/-- GetTime of the source: like GetPlayers, but after the echo marker one
line is read and handed to parseGameTime; the deferred close again runs
exactly once on every path after a successful connect.  On a parse error
Go returns the pair of parseGameTime directly; the model keeps the error
side. -/
def GetTime (dialOk : Bool) (reads : List (Option Chars)) : Outcome GameTime × Sess :=
  match connect dialOk (initSess reads) with
  | (Outcome.ok _, s) =>
    (match execLoop (execMarker ("gt".data)) s.reads with
     | (false, rem) => (.err ("Error reading cmd init information".data), closeConn { s with reads := rem })
     | (true, rem) =>
       match rem with
       | [] => (.err ("read error".data), closeConn { s with reads := [] })
       | none :: rem2 => (.err ("read error".data), closeConn { s with reads := rem2 })
       | some line :: rem2 =>
         if startsWith line ("Day ".data) then
           match parseGameTime line with
           | (gt, none) => (.ok gt, closeConn { s with reads := rem2 })
           | (_, some e) => (.err e, closeConn { s with reads := rem2 })
         else (.err (("Failed to parse time: ".data) ++ line), closeConn { s with reads := rem2 }))
  | (Outcome.err e, s) => (.err e, s)
  | (Outcome.fatal, s) => (.fatal, s)

/-- Join parts with commas: the left inverse of the raw split. -/
def joinC : List Chars → Chars
  | [] => []
  | [p] => p
  | p :: q :: rest => p ++ ',' :: joinC (q :: rest)

/-- Modelled on the words of the specification for comparison with the
source splitter: split at commas that lie at parenthesis depth zero, so
commas between a parenthesis and its matching one do not split, then trim
every part. -/
def splitDepth : Chars → Nat → Chars → List Chars
  | [], _, buf => [buf.reverse]
  | c :: rest, d, buf =>
    if c = ',' then
      if d ≠ 0 then splitDepth rest d (c :: buf)
      else buf.reverse :: splitDepth rest 0 []
    else if c = '(' then splitDepth rest (d + 1) (c :: buf)
    else if c = ')' then splitDepth rest (d - 1) (c :: buf)
    else splitDepth rest d (c :: buf)

/-- The depth-based field splitter written from the specification text. -/
def splitFieldsSpec (line : Chars) : List Chars := (splitDepth line 0 []).map trimSpace

/-- Lines whose parentheses do not nest, starting from a given
inside-parentheses state: no opening parenthesis occurs while already
inside one.  The expected input of the protocol satisfies this. -/
def noNest : Chars → Bool → Bool
  | [], _ => true
  | c :: rest, inside =>
    if c = '(' then (if inside then false else noNest rest true)
    else if c = ')' then noNest rest false
    else noNest rest inside

/-- The split loop never returns an empty list of parts: the final buffer
is always appended. -/
theorem splitLoop_ne_nil (line : Chars) : ∀ inside buf, splitLoop line inside buf ≠ [] := by
  induction line with
  | nil => intro inside buf; simp [splitLoop]
  | cons c rest ih =>
    intro inside buf
    simp only [splitLoop]
    by_cases hc1 : c = ','
    · simp only [hc1, if_pos rfl]
      by_cases hin : inside = true
      · simp [hin, ih]
      · simp only [Bool.not_eq_true] at hin
        simp [hin]
    · by_cases hc2 : c = '('
      · simp [hc1, hc2, ih]
      · by_cases hc3 : c = ')'
        · simp [hc1, hc2, hc3, ih]
        · simp [hc1, hc2, hc3, ih]

/-- Joining the raw parts with commas reproduces the buffer and the
remaining line: nothing is ever dropped by the split loop. -/
theorem joinC_splitLoop (line : Chars) : ∀ inside buf,
    joinC (splitLoop line inside buf) = buf.reverse ++ line := by
  induction line with
  | nil => intro inside buf; simp [splitLoop, joinC]
  | cons c rest ih =>
    intro inside buf
    by_cases hc1 : c = ','
    · subst hc1
      cases inside with
      | true => simp [splitLoop, ih]
      | false =>
        cases hs : splitLoop rest false [] with
        | nil => exact absurd hs (splitLoop_ne_nil rest false [])
        | cons q t =>
          have h2 : joinC (q :: t) = rest := by
            have h3 := ih false []
            rw [hs] at h3
            simpa using h3
          simp [splitLoop, hs, joinC, h2]
    · by_cases hc2 : c = '('
      · subst hc2; simp [splitLoop, ih]
      · by_cases hc3 : c = ')'
        · subst hc3; simp [splitLoop, hc1, ih]
        · simp [splitLoop, hc1, hc2, hc3, ih]

/-- On non-nesting lines the boolean inside flag of the source agrees with
the parenthesis depth of the specification text, so the two splitters
agree. -/
theorem splitLoop_eq_splitDepth (line : Chars) : ∀ d (inside : Bool) buf, d ≤ 1 →
    (inside = true ↔ d ≠ 0) → noNest line inside = true →
    splitLoop line inside buf = splitDepth line d buf := by
  induction line with
  | nil => intro d inside buf _ _ _; rfl
  | cons c rest ih =>
    intro d inside buf hd hrel hn
    simp only [splitLoop, splitDepth]
    by_cases hA : c = ','
    · rw [if_pos hA, if_pos hA]
      have hn2 : noNest rest inside = true := by
        subst hA; simpa [noNest] using hn
      cases inside with
      | true =>
        have hE : d ≠ 0 := hrel.mp rfl
        rw [if_pos rfl, if_pos hE]
        exact ih d true (c :: buf) hd hrel hn2
      | false =>
        have hd0 : d = 0 := by
          by_contra hx
          exact absurd (hrel.mpr hx) (by simp)
        subst hd0
        rw [if_neg (by simp), if_neg (by simp)]
        rw [ih 0 false [] (by omega) (by simp) hn2]
    · rw [if_neg hA, if_neg hA]
      by_cases hC : c = '('
      · rw [if_pos hC, if_pos hC]
        have hin : inside = false := by
          cases inside with
          | false => rfl
          | true => subst hC; simp [noNest] at hn
        subst hin
        have hd0 : d = 0 := by
          by_contra hx
          exact absurd (hrel.mpr hx) (by simp)
        subst hd0
        have hn2 : noNest rest true = true := by
          subst hC; simpa [noNest] using hn
        exact ih (0 + 1) true (c :: buf) (by omega) (by simp) hn2
      · rw [if_neg hC, if_neg hC]
        by_cases hD : c = ')'
        · rw [if_pos hD, if_pos hD]
          have hn2 : noNest rest false = true := by
            subst hD; simpa [noNest] using hn
          have h1 : d - 1 = 0 := by omega
          rw [h1]
          exact ih 0 false (c :: buf) (by omega) (by simp) hn2
        · rw [if_neg hD, if_neg hD]
          have hn2 : noNest rest inside = true := by
            simpa [noNest, hA, hC, hD] using hn
          exact ih d inside (c :: buf) hd hrel hn2

/-- The key switch never changes the name field. -/
theorem applyField_name (p : Player) (k v : Chars) : (applyField p k v).Name = p.Name := by
  unfold applyField
  repeat rw [apply_ite Player.Name]
  simp only [ite_self]

/-- The key-value loop succeeds exactly when every part whose absolute
position is not 1 splits at an equals sign; the values never matter. -/
theorem parseFields_none_iff (parts : List Chars) : ∀ p i,
    (parseFields p i parts).2 = none ↔
      ∀ j, j < parts.length → i + j ≠ 1 → (splitEq (parts.getD j [])).isSome = true := by
  induction parts with
  | nil => intro p i; simp [parseFields]
  | cons a l ih =>
    intro p i
    simp only [parseFields]
    by_cases hi : i = 1
    · subst hi
      rw [if_pos rfl, ih]
      constructor
      · intro h j hj hne
        cases j with
        | zero => exact (hne (by omega)).elim
        | succ j2 =>
          have := h j2 (by simpa using hj) (by omega)
          simpa using this
      · intro h j hj hne
        have := h (j + 1) (by simpa using hj) (by omega)
        simpa using this
    · rw [if_neg hi]
      cases hse : splitEq a with
      | none =>
        simp only [hse]
        constructor
        · intro h; simp at h
        · intro h
          have := h 0 (by simp) (by omega)
          simp [hse] at this
      | some kv =>
        obtain ⟨k, v⟩ := kv
        simp only [hse]
        rw [ih]
        constructor
        · intro h j hj hne
          cases j with
          | zero => simp [hse]
          | succ j2 =>
            have := h j2 (by simpa using hj) (by omega)
            simpa using this
        · intro h j hj hne
          have := h (j + 1) (by simpa using hj) (by omega)
          simpa using this

/-- When the key-value loop fails, the error is the invalid pair message
of a part without an equals sign at a position other than 1. -/
theorem parseFields_err (parts : List Chars) : ∀ p i e,
    (parseFields p i parts).2 = some e →
      ∃ j, j < parts.length ∧ i + j ≠ 1 ∧ (splitEq (parts.getD j [])).isSome = false ∧
        e = kvErr (parts.getD j []) := by
  induction parts with
  | nil => intro p i e h; simp [parseFields] at h
  | cons a l ih =>
    intro p i e h
    simp only [parseFields] at h
    by_cases hi : i = 1
    · subst hi
      rw [if_pos rfl] at h
      obtain ⟨j, hj, hne, hs, he⟩ := ih _ _ _ h
      exact ⟨j + 1, by simpa using hj, by omega, by simpa using hs, by simpa using he⟩
    · rw [if_neg hi] at h
      cases hse : splitEq a with
      | none =>
        rw [hse] at h
        simp at h
        refine ⟨0, by simp, by omega, by simp [hse], ?_⟩
        simp [h]
      | some kv =>
        obtain ⟨k, v⟩ := kv
        rw [hse] at h
        obtain ⟨j, hj, hne, hs, he⟩ := ih _ _ _ h
        exact ⟨j + 1, by simpa using hj, by omega, by simpa using hs, by simpa using he⟩

/-- From position 2 onward the loop never writes the name field. -/
theorem parseFields_name_ge (parts : List Chars) : ∀ p i, 2 ≤ i →
    ((parseFields p i parts).1).Name = p.Name := by
  induction parts with
  | nil => intro p i _; rfl
  | cons a l ih =>
    intro p i hi
    simp only [parseFields]
    rw [if_neg (by omega)]
    cases hse : splitEq a with
    | none => simp only [hse]
    | some kv =>
      obtain ⟨k, v⟩ := kv
      simp only [hse]
      rw [ih _ _ (by omega), applyField_name]

/-- On success the name of the parsed player is the part at position 1 of
the split, or empty when there is no such part. -/
theorem parsePlayerInfo_name (line : Chars)
    (h : (parsePlayerInfo line).2 = none) :
    ((parsePlayerInfo line).1).Name = (splitWithCommas (trimRe1Replace line)).getD 1 [] := by
  unfold parsePlayerInfo at h ⊢
  generalize hp : splitWithCommas (trimRe1Replace line) = parts at h ⊢
  match parts with
  | [] => simp [parseFields, zeroPlayer]
  | [a] =>
    simp only [parseFields] at h ⊢
    rw [if_neg (by omega)] at h ⊢
    cases hse : splitEq a with
    | none => rw [hse] at h; simp at h
    | some kv =>
      obtain ⟨k, v⟩ := kv
      simp only [parseFields]
      rw [applyField_name]
      rfl
  | a :: b :: l =>
    simp only [parseFields] at h ⊢
    rw [if_neg (by omega)] at h ⊢
    cases hse : splitEq a with
    | none => rw [hse] at h; simp at h
    | some kv =>
      obtain ⟨k, v⟩ := kv
      simp only [parseFields, Nat.zero_add]
      simp only [if_true]
      rw [parseFields_name_ge l _ _ (by omega)]
      rfl

/-- The comma split produces one more part than the line has commas. -/
theorem splitCommaAux_length (s : Chars) : ∀ buf,
    (splitCommaAux s buf).length = s.count ',' + 1 := by
  induction s with
  | nil => intro buf; simp [splitCommaAux]
  | cons c rest ih =>
    intro buf
    by_cases hc : c = ','
    · subst hc; simp [splitCommaAux, ih, List.count_cons]
    · simp [splitCommaAux, hc, ih, List.count_cons]

/-- Unless the line has exactly one comma, parseGameTime fails with the
invalid format error and the zero value. -/
theorem parseGameTime_comma_count (s : Chars) (h : s.count ',' ≠ 1) :
    parseGameTime s = (zeroGameTime, some (fmtErr s)) := by
  have hl : (splitComma s).length ≠ 2 := by
    unfold splitComma
    rw [splitCommaAux_length]
    omega
  unfold parseGameTime
  rw [if_pos hl]

/-- A list of length two is the two-element list of its entries. -/
theorem length_two_eq (l : List Chars) (h : l.length = 2) :
    l = [l.getD 0 [], l.getD 1 []] := by
  rcases l with _ | ⟨a, _ | ⟨b, _ | _⟩⟩ <;> simp_all

/-- When parseGameTime reports no error, the line split into exactly two
parts, the day scanned from the first, hours and minutes scanned from the
second around a literal colon, and the returned GameTime carries exactly
those three integers. -/
theorem parseGameTime_none (s : Chars) (h : (parseGameTime s).2 = none) :
    ∃ p1 p2 d hh r2 m r3, splitComma s = [p1, p2] ∧ scanDay p1 = some d ∧
      scanInt p2 = some (hh, ':' :: r2) ∧ scanInt r2 = some (m, r3) ∧
      parseGameTime s = (⟨d, hh, m⟩, none) := by
  unfold parseGameTime at h
  by_cases hl : (splitComma s).length ≠ 2
  · rw [if_pos hl] at h; simp at h
  · rw [if_neg hl] at h
    push_neg at hl
    cases hd : scanDay ((splitComma s).getD 0 []) with
    | none => rw [hd] at h; simp at h
    | some d =>
      rw [hd] at h
      cases hi : scanInt ((splitComma s).getD 1 []) with
      | none => rw [hi] at h; simp at h
      | some pr =>
        obtain ⟨hh, r1⟩ := pr
        rw [hi] at h
        rcases r1 with _ | ⟨c, r2⟩
        · simp at h
        · by_cases hcc : c = ':'
          · subst hcc
            cases hm : scanInt r2 with
            | none => simp [hm] at h
            | some pm =>
              obtain ⟨m, r3⟩ := pm
              refine ⟨(splitComma s).getD 0 [], (splitComma s).getD 1 [], d, hh, r2, m, r3,
                length_two_eq _ hl, hd, hi, hm, ?_⟩
              unfold parseGameTime
              rw [if_neg (by omega), hd, hi]
              simp [hm]
          · exfalso
            repeat split at h
            all_goals simp_all

/-- A successful connect has opened the connection exactly once and closed
nothing: no path of connect runs close. -/
theorem connect_ok_state (dialOk : Bool) (reads : List (Option Chars))
    (h : (connect dialOk (initSess reads)).1 = Outcome.ok ()) :
    ((connect dialOk (initSess reads)).2).closes = 0 ∧
      ((connect dialOk (initSess reads)).2).opens = 1 := by
  cases dialOk with
  | false => simp [connect] at h
  | true =>
    unfold connect at h ⊢
    rcases reads with _ | ⟨r1, rest1⟩
    · simp [initSess, readLine] at h
    · rcases r1 with _ | l1
      · simp [initSess, readLine] at h
      · rcases rest1 with _ | ⟨r2, rest2⟩
        · simp [initSess, readLine] at h
        · rcases r2 with _ | l2
          · simp [initSess, readLine] at h
          · by_cases hct : containsChars l2 loginMarker = true
            · simp [initSess, readLine, hct]
            · simp only [Bool.not_eq_true] at hct
              simp [initSess, readLine, hct] at h

/-- After a successful connect, GetPlayers runs the deferred close exactly
once on every path and never reopens. -/
theorem GetPlayers_state (dialOk : Bool) (reads : List (Option Chars))
    (h : (connect dialOk (initSess reads)).1 = Outcome.ok ()) :
    (GetPlayers dialOk reads).2.closes = 1 ∧ (GetPlayers dialOk reads).2.opens = 1 := by
  have hcs := connect_ok_state dialOk reads h
  rcases hcc : connect dialOk (initSess reads) with ⟨o, s⟩
  rw [hcc] at h hcs
  replace h : o = Outcome.ok () := h
  replace hcs : s.closes = 0 ∧ s.opens = 1 := hcs
  subst h
  unfold GetPlayers
  rw [hcc]
  rcases hex : execLoop (execMarker ("lp".data)) s.reads with ⟨b, rem⟩
  cases b with
  | false => simp [hex, closeConn, hcs.1, hcs.2]
  | true =>
    rcases hpl : playersLoop rem with ⟨r, rem2⟩
    cases r with
    | error e => simp [hex, hpl, closeConn, hcs.1, hcs.2]
    | ok ps => simp [hex, hpl, closeConn, hcs.1, hcs.2]

/-- After a successful connect, GetTime runs the deferred close exactly
once on every path and never reopens. -/
theorem GetTime_state (dialOk : Bool) (reads : List (Option Chars))
    (h : (connect dialOk (initSess reads)).1 = Outcome.ok ()) :
    (GetTime dialOk reads).2.closes = 1 ∧ (GetTime dialOk reads).2.opens = 1 := by
  have hcs := connect_ok_state dialOk reads h
  rcases hcc : connect dialOk (initSess reads) with ⟨o, s⟩
  rw [hcc] at h hcs
  replace h : o = Outcome.ok () := h
  replace hcs : s.closes = 0 ∧ s.opens = 1 := hcs
  subst h
  unfold GetTime
  rw [hcc]
  rcases hex : execLoop (execMarker ("gt".data)) s.reads with ⟨b, rem⟩
  cases b with
  | false => simp [hex, closeConn, hcs.1, hcs.2]
  | true =>
    rcases rem with _ | ⟨ro, rem2⟩
    · simp [hex, closeConn, hcs.1, hcs.2]
    · rcases ro with _ | line
      · simp [hex, closeConn, hcs.1, hcs.2]
      · by_cases hsw : startsWith line ("Day ".data) = true
        · rcases hpg : parseGameTime line with ⟨gt, oe⟩
          rcases oe with _ | e
          · simp [hex, hsw, hpg, closeConn, hcs.1, hcs.2]
          · simp [hex, hsw, hpg, closeConn, hcs.1, hcs.2]
        · simp only [Bool.not_eq_true] at hsw
          simp [hex, hsw, closeConn, hcs.1, hcs.2]

/-- An entry at a position inside the list is a member of the list. -/
theorem getD_mem_of_lt (l : List Chars) : ∀ j, j < l.length → l.getD j [] ∈ l := by
  induction l with
  | nil => intro j h; simp at h
  | cons a t ih =>
    intro j h
    cases j with
    | zero => simp
    | succ j2 =>
      simp only [List.getD_cons_succ]
      exact List.mem_cons_of_mem _ (ih j2 (by simpa using h))

/-- Claim C1, counterexample: with the dial succeeding and the very first
handshake read failing, GetPlayers returns an error with the connection
opened once and never closed (the deferred close is installed only after
connect returns); and when the login reply lacks the marker, log.Fatal
kills the process with the connection opened and not closed.  The claim
that every successfully opened connection is closed exactly once on every
path, the handshake and authentication failures included, is therefore
false on the code. -/
theorem GetPlayers_leaks_on_handshake_error :
    GetPlayers true [] =
      (.err ("Failed to read initial response".data), ⟨[], 1, 0⟩) ∧
    GetPlayers true [some ("banner".data), some ("denied".data)] =
      (.fatal, ⟨[], 1, 0⟩) :=
  ⟨by decide, by decide⟩

/-- Claim C1, amended: once connect has returned successfully (dial,
banner read, password write and login check all done), both GetPlayers
and GetTime close the connection exactly once before returning, on every
path: exec read error, draining read error, parse failure and success
alike; the connection is opened exactly once. -/
theorem close_once_after_successful_connect (dialOk : Bool) (reads : List (Option Chars))
    (h : (connect dialOk (initSess reads)).1 = Outcome.ok ()) :
    ((GetPlayers dialOk reads).2.closes = 1 ∧ (GetPlayers dialOk reads).2.opens = 1) ∧
    ((GetTime dialOk reads).2.closes = 1 ∧ (GetTime dialOk reads).2.opens = 1) :=
  ⟨GetPlayers_state dialOk reads h, GetTime_state dialOk reads h⟩

/-- Witness for the amended claim C1 at a concrete script. -/
theorem close_once_after_successful_connect_witness :
    ((GetPlayers true [some ("banner".data), some loginMarker]).2.closes = 1 ∧
      (GetPlayers true [some ("banner".data), some loginMarker]).2.opens = 1) ∧
    ((GetTime true [some ("banner".data), some loginMarker]).2.closes = 1 ∧
      (GetTime true [some ("banner".data), some loginMarker]).2.opens = 1) :=
  close_once_after_successful_connect true [some ("banner".data), some loginMarker] (by decide)

/-- Claim C2, counterexample: the example line of the claim, with the
display name in front, does not parse to the claimed record; the first
field Bob lacks an equals sign and position 0 is not exempt, so the parse
fails with the invalid pair error carrying Bob. -/
theorem parse_name_first_line_errors :
    parsePlayerInfo ("0. Bob, id=7, pos=(1.5, -2.0, 3.25), health=80, pltfmid=Steam_123".data) =
      (zeroPlayer, some (kvErr ("Bob".data))) := by decide

/-- Claim C2, amended: the display name is the field at position 1 of the
split, so the example line with the id field first and the name second
parses to the claimed record: ID 7, Name Bob, Position (1.5, -2.0, 3.25),
Health 80, platform id Steam_123, every other field at its zero or empty
value, and no error. -/
theorem parse_example_name_at_position_one :
    parsePlayerInfo ("0. id=7, Bob, pos=(1.5, -2.0, 3.25), health=80, pltfmid=Steam_123".data) =
      ({ zeroPlayer with ID := 7, Name := ("Bob".data), Position := ⟨mkRat 3 2, mkRat (-2) 1, mkRat 13 4⟩, Health := 80, PltfmID := ("Steam_123".data) }, none) := by
  decide

/-- Claim C3: the trimming regular expression matches one digit only and
is not anchored, so it does not remove a multi-digit index in full and it
does alter text later in the line.  At the failing input, the line with
index 12 keeps the digit 1, the id field becomes the unrecognised key 1id
and the parsed record silently carries ID 0; and a digit-period-space
inside a name is deleted mid-line. -/
theorem trimRe1_prefix_divergence :
    trimRe1Replace ("12. id=7, Bob".data) = ("1id=7, Bob".data) ∧
    parsePlayerInfo ("12. id=7, Bob".data) = ({ zeroPlayer with Name := ("Bob".data) }, none) ∧
    trimRe1Replace ("0. id=7, Mr2. Smith".data) = ("id=7, MrSmith".data) :=
  ⟨by decide, by decide, by decide⟩

/-- Claim C4, counterexample: for the example line the parse does fail,
but the error carries the fragment X, the first field without an equals
sign; badfield sits at position 1, the exempt name position, and the
error does not mention it. -/
theorem badfield_error_carries_first_fragment :
    parsePlayerInfo ("0. X, badfield".data) = (zeroPlayer, some (kvErr ("X".data))) ∧
    containsChars (kvErr ("X".data)) ("badfield".data) = false :=
  ⟨by decide, by decide⟩

/-- Claim C4, amended: every field other than the one at position 1 must
contain an equals sign; when some such field lacks one, the parse of the
line fails with the invalid pair error carrying an offending fragment
(the first one encountered). -/
theorem missing_eq_is_parse_error (line : Chars)
    (h : ∃ j, j < (splitWithCommas (trimRe1Replace line)).length ∧ j ≠ 1 ∧
      (splitEq ((splitWithCommas (trimRe1Replace line)).getD j [])).isSome = false) :
    ∃ part, part ∈ splitWithCommas (trimRe1Replace line) ∧ (splitEq part).isSome = false ∧
      (parsePlayerInfo line).2 = some (kvErr part) := by
  obtain ⟨j, hj, hne, hs⟩ := h
  cases he : (parsePlayerInfo line).2 with
  | none =>
    exfalso
    have hall := (parseFields_none_iff (splitWithCommas (trimRe1Replace line)) zeroPlayer 0).mp he
    have hj2 := hall j hj (by omega)
    rw [hj2] at hs
    exact Bool.noConfusion hs
  | some e =>
    obtain ⟨j2, hj2, hne2, hs2, he2⟩ := parseFields_err _ zeroPlayer 0 e he
    exact ⟨(splitWithCommas (trimRe1Replace line)).getD j2 [],
      getD_mem_of_lt _ j2 hj2, hs2, by rw [he2]⟩

/-- Witness for the amended claim C4 at the example line. -/
theorem missing_eq_is_parse_error_witness :
    ∃ part, part ∈ splitWithCommas (trimRe1Replace ("0. X, badfield".data)) ∧
      (splitEq part).isSome = false ∧
      (parsePlayerInfo ("0. X, badfield".data)).2 = some (kvErr part) :=
  missing_eq_is_parse_error ("0. X, badfield".data) ⟨0, by decide, by decide, by decide⟩

/-- Claim C5, counterexample: the game-clock parser is not all-or-nothing
in the value it hands back.  When the day part parses but the clock part
does not, the returned pair is an error together with a partially
populated GameTime whose Days is already 17, not the zero value. -/
theorem gameTime_partial_days_on_error :
    parseGameTime ("Day 17, x".data) = (⟨17, 0, 0⟩, some hmErr) ∧
    (⟨17, 0, 0⟩ : GameTime) ≠ zeroGameTime :=
  ⟨by decide, by decide⟩

/-- Claim C5, amended: when no error is reported all three integers have
been scanned and the GameTime carries exactly them; parseGameTime of
garbage fails with the format error and the zero value; and the
well-formed input returns days 17, hours 15, minutes 27 with no error.
On failure after the day scanned, the accompanying value keeps the
fields scanned so far. -/
theorem gameTime_all_or_nothing_amended :
    (∀ s, (parseGameTime s).2 = none →
      ∃ p1 p2 d hh r2 m r3, splitComma s = [p1, p2] ∧ scanDay p1 = some d ∧
        scanInt p2 = some (hh, ':' :: r2) ∧ scanInt r2 = some (m, r3) ∧
        parseGameTime s = (⟨d, hh, m⟩, none)) ∧
    parseGameTime ("garbage".data) = (zeroGameTime, some (fmtErr ("garbage".data))) ∧
    parseGameTime ("Day 17, 15:27".data) = (⟨17, 15, 27⟩, none) :=
  ⟨fun s h => parseGameTime_none s h, by decide, by decide⟩

/-- Witness for the amended claim C5 at the well-formed example. -/
theorem gameTime_all_or_nothing_amended_witness :
    ∃ p1 p2 d hh r2 m r3, splitComma ("Day 17, 15:27".data) = [p1, p2] ∧
      scanDay p1 = some d ∧ scanInt p2 = some (hh, ':' :: r2) ∧
      scanInt r2 = some (m, r3) ∧
      parseGameTime ("Day 17, 15:27".data) = (⟨d, hh, m⟩, none) :=
  gameTime_all_or_nothing_amended.1 ("Day 17, 15:27".data) (by decide)

/-- Claim C6: the field splitter returns the whitespace-trimmed fields of
the line split at commas, except commas between a parenthesis and its
matching one: on every line whose parentheses do not nest (the protocol
never nests them) it agrees with the depth-based splitter written from
that description, and the example line splits into exactly its three
fields. -/
theorem splitWithCommas_respects_parens :
    (∀ line, noNest line false = true → splitWithCommas line = splitFieldsSpec line) ∧
    splitWithCommas ("a, (1, 2, 3), b".data) =
      [("a".data), ("(1, 2, 3)".data), ("b".data)] := by
  constructor
  · intro line hn
    unfold splitWithCommas splitFieldsSpec splitRaw
    rw [splitLoop_eq_splitDepth line 0 false [] (by omega) (by simp) hn]
  · decide

/-- Witness for claim C6 at the example line. -/
theorem splitWithCommas_respects_parens_witness :
    noNest ("a, (1, 2, 3), b".data) false = true ∧
    splitWithCommas ("a, (1, 2, 3), b".data) =
      splitFieldsSpec ("a, (1, 2, 3), b".data) :=
  ⟨by decide, splitWithCommas_respects_parens.1 _ (by decide)⟩

/-- Claim C7: the field splitter is total and never drops input: it is
the trimming image of the raw split, joining the raw parts with commas
reproduces the whole line (so characters after an unmatched parenthesis,
commas included, are folded into the current field), and the final field
is always emitted. -/
theorem splitWithCommas_total_never_drops (line : Chars) :
    splitWithCommas line = (splitRaw line).map trimSpace ∧
    joinC (splitRaw line) = line ∧ splitRaw line ≠ [] :=
  ⟨rfl, joinC_splitLoop line false [], splitLoop_ne_nil line false []⟩

/-- Claim C8: when every field away from the name position splits at an
equals sign, the line parses with no error whatever the values hold, so a
failed numeric conversion cannot abort the line; at the example line the
unconvertible id=abc leaves ID at zero and the parse still succeeds. -/
theorem numeric_failure_not_fatal :
    (∀ line, (∀ j, j < (splitWithCommas (trimRe1Replace line)).length → j ≠ 1 →
        (splitEq ((splitWithCommas (trimRe1Replace line)).getD j [])).isSome = true) →
      (parsePlayerInfo line).2 = none) ∧
    parsePlayerInfo ("0. id=abc, Bob".data) =
      ({ zeroPlayer with Name := ("Bob".data) }, none) := by
  constructor
  · intro line hall
    exact (parseFields_none_iff _ zeroPlayer 0).mpr (fun j hj hne => hall j hj (by omega))
  · decide

/-- Witness for claim C8 at the example line. -/
theorem numeric_failure_not_fatal_witness :
    (parsePlayerInfo ("0. id=abc, Bob".data)).2 = none :=
  numeric_failure_not_fatal.1 ("0. id=abc, Bob".data) (by decide)

/-- Claim C9: the field at position 1 of the split, and only that field,
is exempt from the key-value requirement: on success the name is exactly
that trimmed field, stored verbatim even when it contains an equals sign,
and every error comes from a field at a position other than 1 that lacks
an equals sign. -/
theorem name_position_exempt (line : Chars) :
    ((parsePlayerInfo line).2 = none →
      ((parsePlayerInfo line).1).Name = (splitWithCommas (trimRe1Replace line)).getD 1 []) ∧
    (∀ e, (parsePlayerInfo line).2 = some e →
      ∃ j, j < (splitWithCommas (trimRe1Replace line)).length ∧ j ≠ 1 ∧
        (splitEq ((splitWithCommas (trimRe1Replace line)).getD j [])).isSome = false ∧
        e = kvErr ((splitWithCommas (trimRe1Replace line)).getD j [])) := by
  constructor
  · exact parsePlayerInfo_name line
  · intro e he
    obtain ⟨j, hj, hne, hs, hee⟩ := parseFields_err _ zeroPlayer 0 e he
    exact ⟨j, hj, by omega, hs, hee⟩

/-- Witness for claim C9: at a line whose name field contains an equals
sign, the name is stored verbatim from position 1. -/
theorem name_position_exempt_witness :
    ((parsePlayerInfo ("0. id=7, a=b".data)).1).Name =
      (splitWithCommas (trimRe1Replace ("0. id=7, a=b".data))).getD 1 [] :=
  (name_position_exempt ("0. id=7, a=b".data)).1 (by decide)

/-- Claim C10: the game-clock parser splits at every comma and demands
exactly two parts, so every input whose comma count differs from one
fails with the invalid format error and the zero value, even when a
well-formed day and clock portion comes first. -/
theorem gameTime_rejects_comma_count (s : Chars) (h : s.count ',' ≠ 1) :
    parseGameTime s = (zeroGameTime, some (fmtErr s)) :=
  parseGameTime_comma_count s h

/-- Witness for claim C10 at a line with a trailing extra part. -/
theorem gameTime_rejects_comma_count_witness :
    parseGameTime ("Day 17, 15:27, x".data) =
      (zeroGameTime, some (fmtErr ("Day 17, 15:27, x".data))) :=
  gameTime_rejects_comma_count ("Day 17, 15:27, x".data) (by decide)
